import Mathlib

/-!
# Recipe Ideas: search composition, pagination, favorites and detail overlay

A shallow embedding of the logic of `src/App.jsx` (the `App`, `Pagination` and
`RecipeDetail` components) together with the properties stated about it.

Conventions of the embedding:

* a React state variable is a field of a state record, a handler is a function
  from state to state;
* an `async` handler is split at its `await`: what runs before the remote call
  and what runs when the call settles are separate steps;
* the remote catalog is a parameter `api : Query → Option (List Meal)`, where
  `none` stands for a call that throws (transport or parse failure);
* `String.prototype.localeCompare` is a parameter `cmp : String → String → Int`;
* JavaScript numbers that hold page numbers and lengths are integers.
-/

namespace RecipeIdeas

/-! ## Data model -/

/-- List-shaped result record: `{ idMeal, strMeal, strMealThumb }`. -/
structure Meal where
  idMeal : String
  strMeal : String
  strMealThumb : String
deriving DecidableEq, Repr

/-! ## `intersectById` (App.jsx, lines 108-120) -/

/-- Entries of the `Map` built by `intersectById`, oldest key first. -/
abbrev CountMap := List (String × Nat)

/-- The call `map.get(k)`; `none` is `undefined`. -/
def CountMap.get (map : CountMap) (k : String) : Option Nat :=
  List.lookup k map

/-- The call `map.set(k, v)`: an existing key keeps its position, a new key
goes last. -/
def CountMap.set : CountMap → String → Nat → CountMap
  | [], k, v => [(k, v)]
  | (k', v') :: rest, k, v =>
    if k' = k then (k', v) :: rest else (k', v') :: CountMap.set rest k v

/-- The array `nonEmpty = lists.filter((l) => l && l.length)`: the lists that
are present and non-empty; `none` is a missing (`null` / `undefined`) list. -/
def nonEmptyLists (lists : List (Option (List Meal))) : List (List Meal) :=
  lists.filterMap fun l =>
    match l with
    | some l => if l.length ≠ 0 then some l else none
    | none => none

/-- The inner `list.forEach`: one `map.set(id, (map.get(id) || 0) + 1)` per
element. -/
def countList (map : CountMap) (list : List Meal) : CountMap :=
  list.foldl (fun map m => map.set m.idMeal ((map.get m.idMeal).getD 0 + 1)) map

/-- The outer `nonEmpty.forEach`. -/
def countAll (nonEmpty : List (List Meal)) : CountMap :=
  nonEmpty.foldl countList []

/-- The function `intersectById(lists)`. -/
def intersectById (lists : List (Option (List Meal))) : List Meal :=
  let nonEmpty := nonEmptyLists lists
  match nonEmpty with
  | [] => []
  | anyList :: _ =>
    let map := countAll nonEmpty
    let needed := nonEmpty.length
    anyList.filter fun m => map.get m.idMeal == some needed

/-- Insertion of `x` at position `i` of `lists` (at the end when `i` exceeds
the length). -/
def insertAt (lists : List (Option (List Meal))) (i : Nat)
    (x : Option (List Meal)) : List (Option (List Meal)) :=
  lists.take i ++ x :: lists.drop i

/-! ## Favorites (App.jsx, lines 30-42 and 222-230) -/

/-- The updater passed to `setFavorites` by `toggleFavorite(meal)`. -/
def toggleFavorite (prev : List Meal) (meal : Meal) : List Meal :=
  match prev.find? (fun m => m.idMeal == meal.idMeal) with
  | some _ => prev.filter (fun m => m.idMeal != meal.idMeal)
  | none => prev ++ [meal]

/-- The function `isFav(id)`: `favorites.some((f) => f.idMeal === id)`. -/
def isFav (favorites : List Meal) (id : String) : Bool :=
  favorites.any (fun f => f.idMeal == id)

/-- Lower-case hexadecimal digit. -/
def hexDigit (n : Nat) : Char :=
  if n < 10 then Char.ofNat (48 + n) else Char.ofNat (87 + n)

/-- One character inside a JSON string literal, as `JSON.stringify` writes it. -/
def quoteChar (c : Char) : List Char :=
  if c = '"' then ['\\', '"']
  else if c = '\\' then ['\\', '\\']
  else if c.toNat = 8 then ['\\', 'b']
  else if c.toNat = 9 then ['\\', 't']
  else if c.toNat = 10 then ['\\', 'n']
  else if c.toNat = 12 then ['\\', 'f']
  else if c.toNat = 13 then ['\\', 'r']
  else if c.toNat < 32 then
    ['\\', 'u', '0', '0', hexDigit (c.toNat / 16), hexDigit (c.toNat % 16)]
  else [c]

/-- The result of `JSON.stringify` on a string. -/
def quoteJSONString (s : String) : String :=
  "\"" ++ String.mk (s.data.flatMap quoteChar) ++ "\""

/-- The result of `JSON.stringify` on one record whose own keys are, in this
order, `idMeal`, `strMeal`, `strMealThumb` (the order in which `fetchByName`
writes them). The key order of a record is not part of `Meal`; a record with
another key order is serialized with its keys in that order. -/
def stringifyMeal (m : Meal) : String :=
  "\x7b\"idMeal\":" ++ quoteJSONString m.idMeal ++
  ",\"strMeal\":" ++ quoteJSONString m.strMeal ++
  ",\"strMealThumb\":" ++ quoteJSONString m.strMealThumb ++ "\x7d"

/-- The value written under the key `favorites:v1` by the persist effect:
`JSON.stringify(favorites)`. -/
def persistedFavorites (favorites : List Meal) : String :=
  "[" ++ String.intercalate "," (favorites.map stringifyMeal) ++ "]"

/-! ## Query builder (App.jsx, lines 128-147) -/

/-- One remote list request: the endpoint and its text argument. -/
inductive Query where
  /-- The request of `fetchByIngredient`: `filter.php?i=`. -/
  | byIngredient (ing : String)
  /-- The request of `fetchByName`: `search.php?s=`. -/
  | byName (name : String)
  /-- The request of `fetchByCategory`: `filter.php?c=`. -/
  | byCategory (cat : String)
  /-- The request of `fetchByArea`: `filter.php?a=`. -/
  | byArea (ar : String)
deriving DecidableEq, Repr

/-- Code points that `String.prototype.trim` removes (WhiteSpace and
LineTerminator). -/
def isJsWhiteSpace (c : Char) : Bool :=
  let n := c.toNat
  n = 9 || n = 10 || n = 11 || n = 12 || n = 13 || n = 32 || n = 160 ||
  n = 5760 || (8192 ≤ n && n ≤ 8202) || n = 8232 || n = 8233 || n = 8239 ||
  n = 8287 || n = 12288 || n = 65279

/-- The string `s.trim()`. -/
def jsTrim (s : String) : String :=
  String.mk ((s.data.dropWhile isJsWhiteSpace).reverse.dropWhile isJsWhiteSpace).reverse

/-- The ingredient-or-name branch of `runSearch` (lines 130-144): the request
it makes for the captured `mode` and `query`. -/
def baseQueries (mode query : String) : List Query :=
  if mode = "ingredient" then
    if jsTrim query ≠ "" then [Query.byIngredient (jsTrim query)]
    else [Query.byName ""]
  else if mode = "name" then
    if jsTrim query ≠ "" then [Query.byName (jsTrim query)]
    else [Query.byName ""]
  else []

/-- The requests of one search in the order `runSearch` awaits them
(lines 130-147). -/
def plannedQueries (mode query category area : String) : List Query :=
  baseQueries mode query ++
  (if category ≠ "" then [Query.byCategory category] else []) ++
  (if area ≠ "" then [Query.byArea area] else [])

/-- The awaits of the `try` block, one after the other: every request is made
when the previous one has returned, and a request that throws leaves the block,
so the requests after it are never made. The result is the requests made and
`lists` (`none` when the block was left by an exception). -/
def fetchAll (api : Query → Option (List Meal)) :
    List Query → List Query × Option (List (List Meal))
  | [] => ([], some [])
  | q :: qs =>
    match api q with
    | none => ([q], none)
    | some l => ((q :: (fetchAll api qs).1), (fetchAll api qs).2.map (l :: ·))

/-! ## Result combiner (App.jsx, lines 149-170) -/

/-- The list `finalMeals` (lines 149-156). -/
def combine (lists : List (List Meal)) : List Meal :=
  match lists with
  | [] => []
  | [l] => l
  | _ => intersectById (lists.map some)

/-- Own properties of the accumulator object `acc`, in creation order. -/
abbrev JsObject := List (String × Meal)

/-- The write of the own property `k` of `acc`: an existing property keeps its
place, a new one is created last. -/
def JsObject.define : JsObject → String → Meal → JsObject
  | [], k, m => [(k, m)]
  | (k', m') :: rest, k, m =>
    if k' = k then (k', m) :: rest else (k', m') :: JsObject.define rest k m

/-- The assignment `acc[k] = m` on the plain object `acc`. For the key
`__proto__` the assignment runs the setter that `acc` inherits from
`Object.prototype`: the record `m` becomes the prototype of `acc` and no own
property is created. Every other key is written as an own property (the other
inherited properties are writable data properties). -/
def JsObject.assign (acc : JsObject) (k : String) (m : Meal) : JsObject :=
  if k = "__proto__" then acc else acc.define k m

/-- Decimal value of a list of digits. -/
def digitsValue (cs : List Char) : Nat :=
  cs.foldl (fun n c => 10 * n + (c.toNat - 48)) 0

/-- The array index a property key denotes, if any: a canonical decimal
numeral below `2^32 - 1`. -/
def arrayIndex? (k : String) : Option Nat :=
  let cs := k.data
  if cs ≠ [] ∧ cs.all Char.isDigit = true ∧ (cs.head? ≠ some '0' ∨ cs.length = 1) ∧
      digitsValue cs < 2 ^ 32 - 1 then
    some (digitsValue cs)
  else none

/-- The array `Object.values(acc)`: array-index keys in ascending numeric order, then
the other keys in creation order. -/
def JsObject.values (acc : JsObject) : List Meal :=
  let indexed := acc.filterMap fun p => (arrayIndex? p.1).map fun n => (n, p.2)
  let named := acc.filter fun p => (arrayIndex? p.1).isNone
  (indexed.insertionSort (fun a b => a.1 ≤ b.1)).map (·.2) ++ named.map (·.2)

/-- The array `xs.sort((a, b) => a.strMeal.localeCompare(b.strMeal))`: the
stable sort by the comparison `cmp`. -/
def sortByName (cmp : String → String → Int) (xs : List Meal) : List Meal :=
  xs.insertionSort (fun a b => cmp a.strMeal b.strMeal ≤ 0)

/-- The de-duplicate and sort step (lines 163-168). -/
def dedupSort (cmp : String → String → Int) (finalMeals : List Meal) : List Meal :=
  sortByName cmp
    (JsObject.values (finalMeals.foldl (fun acc m => acc.assign m.idMeal m) []))

/-! ## Search state and `runSearch` (App.jsx, lines 7-21 and 122-176) -/

/-- The state variables of `App` that searching and paging read and write.
The field `inFlight` is not a React state variable: it lists the searches that
are suspended at an `await`, each with the requests it captured. -/
structure AppState where
  mode : String
  query : String
  category : String
  area : String
  meals : List Meal
  loading : Bool
  error : Option String
  page : Int
  inFlight : List (List Query)
deriving DecidableEq

/-- The state after the `useState` initialisers. -/
def AppState.init : AppState where
  mode := "ingredient"
  query := ""
  category := ""
  area := ""
  meals := []
  loading := false
  error := none
  page := 1
  inFlight := []

/-- The part of `runSearch` before its first `await` (lines 123-126), together
with the capture of the requests it is going to make. -/
def runSearchBegin (s : AppState) : AppState :=
  { s with
    loading := true
    error := none
    meals := []
    page := 1
    inFlight := s.inFlight ++ [plannedQueries s.mode s.query s.category s.area] }

/-- The part of `runSearch` after its last `await` (lines 149-175), for the
outcome `fetched` of the requests: `none` enters the `catch` block. -/
def runSearchEnd (cmp : String → String → Int) (fetched : Option (List (List Meal)))
    (s : AppState) : AppState :=
  match fetched with
  | none =>
    { s with
      error := some "Something went wrong while fetching recipes. Please try again."
      loading := false }
  | some lists =>
    if (combine lists).length = 0 then
      { s with
        meals := []
        error := some "No recipes matched your criteria."
        loading := false }
    else
      { s with
        meals := dedupSort cmp (combine lists)
        loading := false }

/-- Settling of the `k`-th suspended search against the catalog `api`. -/
def runSearchSettle (cmp : String → String → Int) (api : Query → Option (List Meal))
    (k : Nat) (s : AppState) : Option AppState :=
  match s.inFlight.get? k with
  | none => none
  | some queries =>
    some (runSearchEnd cmp (fetchAll api queries).2
      { s with inFlight := s.inFlight.eraseIdx k })

/-- The requests one call of `runSearch` makes in state `s` against `api`. -/
def issuedQueries (api : Query → Option (List Meal)) (s : AppState) : List Query :=
  (fetchAll api (plannedQueries s.mode s.query s.category s.area)).1

/-- One call of `runSearch` from start to end with nothing else in between. -/
def runSearch (cmp : String → String → Int) (api : Query → Option (List Meal))
    (s : AppState) : AppState :=
  runSearchEnd cmp (fetchAll api (plannedQueries s.mode s.query s.category s.area)).2
    { runSearchBegin s with inFlight := s.inFlight }

/-- The `onClick` of the Clear button (lines 275-282). -/
def clearAll (s : AppState) : AppState :=
  { s with query := "", category := "", area := "", meals := [], error := none, page := 1 }

/-! ## Pager (App.jsx, lines 21, 180-187 and 541-543) -/

/-- The constant `pageSize`. -/
def pageSize : Nat := 12

/-- The value `Math.max(1, Math.ceil(meals.length / pageSize))` for
`meals.length = len`; the ceiling of the quotient of two lengths is taken by
rounding the integer division up. -/
def totalPages (len : Nat) : Int :=
  max 1 (((len + pageSize - 1) / pageSize : Nat) : Int)

/-- The array `xs.slice(start, end)` of `Array.prototype.slice`: a negative
bound counts from the end, and both bounds are clipped to the array. -/
def jsSlice {α : Type} (xs : List α) (start stop : Int) : List α :=
  let len : Int := xs.length
  let k := if start < 0 then max (len + start) 0 else min start len
  let final := if stop < 0 then max (len + stop) 0 else min stop len
  (xs.drop k.toNat).take (final - k).toNat

/-- The list `pagedMeals` for the stored `meals` and `page`. -/
def pagedMeals (meals : List Meal) (page : Int) : List Meal :=
  let start := (page - 1) * pageSize
  jsSlice meals start (start + pageSize)

/-- The page `go(p)` passes to `setPage` in `Pagination`. -/
def Pagination.go (totalPages p : Int) : Int :=
  min (max 1 p) totalPages

/-- Whether `Pagination` is on screen with its buttons: the results block is
rendered (line 347) and `Pagination` does not return `null` (line 542). -/
def paginationShown (s : AppState) : Bool :=
  !s.loading && s.error.isNone && decide (s.meals.length > 0) &&
  decide (1 < totalPages s.meals.length)

/-- What the user can do to the result list and the page number. -/
inductive AppEvent where
  /-- A call of `runSearch` reaches its first `await`. -/
  | searchBegin
  /-- The `k`-th suspended `runSearch` resumes with the answers of `api`. -/
  | searchSettle (api : Query → Option (List Meal)) (k : Nat)
  /-- The Clear button. -/
  | clear
  /-- The First button: `go(1)`. -/
  | first
  /-- The Prev button: `go(page - 1)`. -/
  | prev
  /-- The Next button: `go(page + 1)`. -/
  | next
  /-- The Last button: `go(totalPages)`. -/
  | last

/-- A click on a button of `Pagination` asking for page `p`; `disabled` is the
button's `disabled` attribute. -/
def navigate (s : AppState) (disabled : Bool) (p : Int) : Option AppState :=
  if paginationShown s && !disabled then
    some { s with page := Pagination.go (totalPages s.meals.length) p }
  else none

/-- One step of the application; `none` when the event cannot happen in `s`. -/
def AppState.step (cmp : String → String → Int) (s : AppState) :
    AppEvent → Option AppState
  | AppEvent.searchBegin => some (runSearchBegin s)
  | AppEvent.searchSettle api k => runSearchSettle cmp api k s
  | AppEvent.clear => some (clearAll s)
  | AppEvent.first => navigate s (decide (s.page = 1)) 1
  | AppEvent.prev => navigate s (decide (s.page = 1)) (s.page - 1)
  | AppEvent.next =>
    navigate s (decide (s.page = totalPages s.meals.length)) (s.page + 1)
  | AppEvent.last =>
    navigate s (decide (s.page = totalPages s.meals.length)) (totalPages s.meals.length)

/-- A run of events from `s`. -/
def AppState.run (cmp : String → String → Int) (s : AppState) :
    List AppEvent → Option AppState
  | [] => some s
  | e :: es =>
    match s.step cmp e with
    | none => none
    | some t => t.run cmp es

/-- The page-state invariant: `1 <= page <= totalPages`. -/
def PageInv (s : AppState) : Prop :=
  1 ≤ s.page ∧ s.page ≤ totalPages s.meals.length

instance (s : AppState) : Decidable (PageInv s) :=
  inferInstanceAs (Decidable (1 ≤ s.page ∧ s.page ≤ totalPages s.meals.length))

/-- Whether the event leaves at most one search suspended: `runSearch` is
only called when no earlier call is suspended. -/
def searchAllowed (s : AppState) : AppEvent → Bool
  | AppEvent.searchBegin => s.inFlight.isEmpty
  | _ => true

/-- Searches do not overlap along a run. -/
def noOverlap (cmp : String → String → Int) : AppState → List AppEvent → Bool
  | _, [] => true
  | s, e :: es =>
    searchAllowed s e &&
    (match s.step cmp e with
     | none => true
     | some t => noOverlap cmp t es)

/-- What holds along runs without overlapping searches: the page invariant,
page 1 and the loading flag while a search is suspended, and at most one
suspended search. -/
def SeqInv (s : AppState) : Prop :=
  PageInv s ∧ (s.inFlight ≠ [] → s.page = 1 ∧ s.loading = true) ∧ s.inFlight.length ≤ 1

/-- The requests the specification lists for a search state: the base request
with the trimmed text, then the category request, then the area request. -/
def specQueries (s : AppState) : List Query :=
  [if s.mode = "ingredient" ∧ jsTrim s.query ≠ "" then Query.byIngredient (jsTrim s.query)
   else Query.byName (jsTrim s.query)] ++
  (if s.category ≠ "" then [Query.byCategory s.category] else []) ++
  (if s.area ≠ "" then [Query.byArea s.area] else [])

/-! ## Detail record and ingredient list (App.jsx, lines 602-609) -/

/-- The fields of a full record that the overlay logic reads;
`strIngredient i` is the property `strIngredient${i}` and `none` is a property
that is missing or `null`. -/
structure MealDetail where
  idMeal : String
  strMeal : String
  strIngredient : Nat → Option String
  strMeasure : Nat → Option String

/-- The template literal pushed for a slot: the ingredient, and the separator
with the measure when `meas` is truthy (present and not empty). -/
def ingredientEntry (ing : String) (meas : Option String) : String :=
  ing ++
    (match meas with
     | none => ""
     | some m => if m != "" then " — " ++ m else "")

/-- One iteration of the `for` loop of `RecipeDetail`: the entry is pushed when
`ing && ing.trim()` is truthy. -/
def ingredientStep (detail : MealDetail) (ingredients : List String) (i : Nat) :
    List String :=
  match detail.strIngredient i with
  | none => ingredients
  | some ing =>
    if ing != "" && jsTrim ing != "" then
      ingredients ++ [ingredientEntry ing (detail.strMeasure i)]
    else ingredients

/-- The array `ingredients` after `for (let i = 1; i <= 20; i++)`. -/
def ingredients (detail : MealDetail) : List String :=
  (List.range' 1 20).foldl (ingredientStep detail) []

/-! ## Detail overlay (App.jsx, lines 24-27 and 190-211) -/

/-- The state variables of the overlay. The field `pending` is not a React
state variable: it lists the ids of the lookups that have not settled yet,
oldest first. -/
structure DetailState where
  activeId : Option String
  detail : Option MealDetail
  detailLoading : Bool
  detailError : Option String
  pending : List String

/-- The overlay state after the `useState` initialisers. -/
def DetailState.init : DetailState where
  activeId := none
  detail := none
  detailLoading := false
  detailError := none
  pending := []

/-- How a lookup settles: a record, an answer without a record, or an
exception. -/
inductive LookupResult where
  | found (d : MealDetail)
  | notFound
  | failed

/-- The part of `openDetails(id)` before its `await` (lines 191-196). -/
def openDetails (s : DetailState) (id : String) : DetailState :=
  { activeId := some id
    detail := none
    detailError := none
    detailLoading := true
    pending := s.pending ++ [id] }

/-- The part of `openDetails` after its `await` (lines 198-203). -/
def openDetailsSettle (s : DetailState) (r : LookupResult) : DetailState :=
  match r with
  | LookupResult.found d => { s with detail := some d, detailLoading := false }
  | LookupResult.notFound =>
    { s with
      detail := none
      detailError := some "Could not load recipe details."
      detailLoading := false }
  | LookupResult.failed =>
    { s with
      detailError := some "Could not load recipe details."
      detailLoading := false }

/-- The handler `closeDetails()`. -/
def closeDetails (s : DetailState) : DetailState :=
  { s with activeId := none, detail := none, detailError := none }

/-- The steps of the overlay. -/
inductive DetailEvent where
  /-- A call `openDetails(id)`. -/
  | opened (id : String)
  /-- The `k`-th pending lookup settles with `r`. -/
  | response (k : Nat) (r : LookupResult)
  /-- A call `closeDetails()`. -/
  | closed

/-- The catalog answers a lookup of `id` with a record of that id, if with a
record at all. -/
def LookupResult.answers (r : LookupResult) (id : String) : Bool :=
  match r with
  | LookupResult.found d => d.idMeal == id
  | _ => true

/-- One step of the overlay; `none` when the event cannot happen in `s`. -/
def DetailState.step (s : DetailState) : DetailEvent → Option DetailState
  | DetailEvent.opened id => some (openDetails s id)
  | DetailEvent.response k r =>
    match s.pending.get? k with
    | none => none
    | some _ => some (openDetailsSettle { s with pending := s.pending.eraseIdx k } r)
  | DetailEvent.closed => some (closeDetails s)

/-- A run of events from `s`. -/
def DetailState.run (s : DetailState) : List DetailEvent → Option DetailState
  | [] => some s
  | e :: es =>
    match s.step e with
    | none => none
    | some t => t.run es

/-- The tuple `(detail, detailError, detailLoading)`, with the record
identified by its id. -/
def DetailState.shown (s : DetailState) : Option String × Option String × Bool :=
  (s.detail.map (·.idMeal), s.detailError, s.detailLoading)

/-- What the result `r` of a lookup leaves in the state `t`, coming from `s`:
the record, or the error message without a record, or the error message with
the record unchanged. -/
def storedResult (s t : DetailState) (r : LookupResult) : Prop :=
  match r with
  | LookupResult.found d => t.detail = some d ∧ t.detailError = s.detailError
  | LookupResult.notFound =>
    t.detail = none ∧ t.detailError = some "Could not load recipe details."
  | LookupResult.failed =>
    t.detail = s.detail ∧ t.detailError = some "Could not load recipe details."

/-- A loaded record belongs to the active id. -/
def DetailInv (s : DetailState) : Prop :=
  ∀ d, s.detail = some d → s.activeId = some d.idMeal

/-- Whether the event is not a stale response: a response settles a lookup of
the id that is active when it arrives, and carries a record of that id if it
carries one. -/
def responseFresh (s : DetailState) : DetailEvent → Bool
  | DetailEvent.response k r =>
    (match s.pending.get? k with
     | none => false
     | some id => s.activeId == some id && r.answers id)
  | _ => true

/-- No stale response along a run. -/
def noStale : DetailState → List DetailEvent → Bool
  | _, [] => true
  | s, e :: es =>
    responseFresh s e &&
    (match s.step e with
     | none => true
     | some t => noStale t es)

/-- The specification of the ingredient list, slot by slot: a slot is listed
when its ingredient name is present and not empty after trimming. -/
def slotIncluded (detail : MealDetail) (i : Nat) : Bool :=
  match detail.strIngredient i with
  | none => false
  | some ing => jsTrim ing != ""

/-- The specification of the entry of a listed slot: the ingredient name,
followed by the separator and the measure when the measure is present and not
empty. -/
def slotEntry (detail : MealDetail) (i : Nat) : String :=
  match detail.strIngredient i, detail.strMeasure i with
  | none, _ => ""
  | some ing, none => ing
  | some ing, some meas => if meas = "" then ing else ing ++ " — " ++ meas

/-! ## Specification of the intersection and of the pages -/

/-- Whether `id` occurs in every one of `lists`. -/
def inEveryList (lists : List (List Meal)) (id : String) : Bool :=
  lists.all fun l => l.any fun x => x.idMeal == id

/-- The counter of `k`, with `0` for a key that is not in the map. -/
def CountMap.count (map : CountMap) (k : String) : Nat :=
  (map.get k).getD 0

/-- Occurrences of `k` over all the lists. -/
def occurrences (ls : List (List Meal)) (k : String) : Nat :=
  (ls.map fun l => l.countP fun m => m.idMeal == k).sum

/-- The page slices of pages 1 to `totalPages`, in order. -/
def pageSlices (meals : List Meal) : List (List Meal) :=
  (List.range (totalPages meals.length).toNat).map fun (i : Nat) =>
    pagedMeals meals ((i : Int) + 1)

/-! ## Sample records for the concrete evaluations -/

/-- A sample record with id `1`. -/
def sampleA : Meal := ⟨"1", "Apple Pie", ""⟩

/-- A sample record whose id is the key `__proto__`. -/
def sampleProto : Meal := ⟨"__proto__", "Proto Pie", ""⟩

/-- A sample record with id `2`. -/
def sampleB : Meal := ⟨"2", "Beef Stew", ""⟩

/-- A sample search state: the initial state with the category `Seafood`. -/
def sampleSeafood : AppState :=
  { AppState.init with category := "Seafood" }

/-- A sample catalog in which every request fails. -/
def apiDown : Query → Option (List Meal) :=
  fun _ => none

/-- A sample catalog that answers every request with one record. -/
def apiOne : Query → Option (List Meal) :=
  fun _ => some [sampleA]

/-- A sample full record with id `1`, salt in slot 2 and an egg without
measure in slot 5. -/
def sampleDetail : MealDetail where
  idMeal := "1"
  strMeal := "Apple Pie"
  strIngredient := fun i => if i = 2 then some "salt" else if i = 5 then some "egg" else none
  strMeasure := fun i => if i = 2 then some "1 tsp" else none

/-- Thirteen sample records with distinct ids. -/
def sampleThirteen : List Meal :=
  [⟨"1", "a", ""⟩, ⟨"2", "b", ""⟩, ⟨"3", "c", ""⟩, ⟨"4", "d", ""⟩, ⟨"5", "e", ""⟩,
   ⟨"6", "f", ""⟩, ⟨"7", "g", ""⟩, ⟨"8", "h", ""⟩, ⟨"9", "i", ""⟩, ⟨"10", "j", ""⟩,
   ⟨"11", "k", ""⟩, ⟨"12", "l", ""⟩, ⟨"13", "m", ""⟩]

/-- A sample catalog that answers every request with thirteen records. -/
def apiThirteen : Query → Option (List Meal) :=
  fun _ => some sampleThirteen

/-- A run with one search at a time: a search starts and settles with
thirteen records, then the user goes to the next page. -/
def oneSearch : List AppEvent :=
  [AppEvent.searchBegin, AppEvent.searchSettle apiThirteen 0, AppEvent.next]

/-- A run without stale response: the overlay is opened for id `1` and the
lookup settles with the record of id `1`. -/
def freshResponse : List DetailEvent :=
  [DetailEvent.opened "1", DetailEvent.response 0 (LookupResult.found sampleDetail)]

/-- A run with two overlapping searches: both start, the first settles with
thirteen records, the user goes to the next page, the second settles with one
record. -/
def overlappingSearches : List AppEvent :=
  [AppEvent.searchBegin, AppEvent.searchBegin, AppEvent.searchSettle apiThirteen 0,
   AppEvent.next, AppEvent.searchSettle apiOne 0]

/-- A run with a stale response: the overlay is opened for id `1`, then for
id `2`, then the lookup of id `1` settles. -/
def staleResponse : List DetailEvent :=
  [DetailEvent.opened "1", DetailEvent.opened "2",
   DetailEvent.response 0 (LookupResult.found sampleDetail)]

/-- The state at the end of `oneSearch`. -/
def oneSearchFinal : AppState :=
  { AppState.init with meals := sampleThirteen, page := 2 }

/-- The state at the end of `freshResponse`. -/
def freshResponseFinal : DetailState where
  activeId := some "1"
  detail := some sampleDetail
  detailLoading := false
  detailError := none
  pending := []

/-- A sample name comparison: by length. -/
def lengthCompare (a b : String) : Int :=
  (a.length : Int) - (b.length : Int)

/-! # Properties -/

theorem lengthCompare_total (a b : String) :
    lengthCompare a b ≤ 0 ∨ lengthCompare b a ≤ 0 := by
  unfold lengthCompare
  omega

theorem lengthCompare_trans (a b c : String) (h1 : lengthCompare a b ≤ 0)
    (h2 : lengthCompare b c ≤ 0) : lengthCompare a c ≤ 0 := by
  unfold lengthCompare at *
  omega

/-! ## Result combiner: empty and missing lists -/

theorem nonEmptyLists_insertAt_none (lists : List (Option (List Meal))) (i : Nat) :
    nonEmptyLists (insertAt lists i none) = nonEmptyLists lists := by
  unfold nonEmptyLists insertAt
  rw [List.filterMap_append, List.filterMap_cons]
  simp only []
  rw [← List.filterMap_append, List.take_append_drop]

theorem nonEmptyLists_insertAt_empty (lists : List (Option (List Meal))) (i : Nat) :
    nonEmptyLists (insertAt lists i (some [])) = nonEmptyLists lists := by
  unfold nonEmptyLists insertAt
  rw [List.filterMap_append, List.filterMap_cons]
  simp only [List.length_nil, ne_eq, not_true_eq_false, ↓reduceIte]
  rw [← List.filterMap_append, List.take_append_drop]

theorem intersectById_congr {l₁ l₂ : List (Option (List Meal))}
    (h : nonEmptyLists l₁ = nonEmptyLists l₂) : intersectById l₁ = intersectById l₂ := by
  unfold intersectById
  rw [h]

/-- C7: inserting a missing list or an empty list at any position of the
argument of `intersectById` does not change its result, because such lists are
filtered out before the number of required matches is taken. -/
theorem intersectById_insert_empty (lists : List (Option (List Meal))) (i : Nat) :
    intersectById (insertAt lists i none) = intersectById lists ∧
    intersectById (insertAt lists i (some [])) = intersectById lists ∧
    nonEmptyLists (insertAt lists i none) = nonEmptyLists lists ∧
    nonEmptyLists (insertAt lists i (some [])) = nonEmptyLists lists :=
  ⟨intersectById_congr (nonEmptyLists_insertAt_none lists i),
   intersectById_congr (nonEmptyLists_insertAt_empty lists i),
   nonEmptyLists_insertAt_none lists i, nonEmptyLists_insertAt_empty lists i⟩

/-- C1, evaluated where it fails: for the two non-empty lists `[A, A]` and
`[B]`, `intersectById` returns `A` twice although the id of `A` does not occur
in the second list: the two occurrences in the first list are counted as two
lists. A search whose requests return these lists stores `A`. -/
theorem intersectById_repeated_id :
    intersectById [some [sampleA, sampleA], some [sampleB]] = [sampleA, sampleA] ∧
    sampleA.idMeal ∉ [sampleB].map Meal.idMeal ∧
    (runSearchEnd lengthCompare (some [[sampleA, sampleA], [sampleB]]) AppState.init).meals =
      [sampleA] := by
  decide

/-! ## Favorites -/

theorem isFav_filter_ne (F : List Meal) (k i : String) :
    isFav (F.filter (fun m => m.idMeal != k)) i = (isFav F i && i != k) := by
  rw [Bool.eq_iff_iff]
  simp only [isFav, List.any_eq_true, List.mem_filter, bne_iff_ne, ne_eq, beq_iff_eq,
    Bool.and_eq_true]
  constructor
  · rintro ⟨x, ⟨hx, hk⟩, hi⟩
    exact ⟨⟨x, hx, hi⟩, fun h => hk (hi.trans h)⟩
  · rintro ⟨⟨x, hx, hi⟩, hk⟩
    exact ⟨x, ⟨hx, fun h => hk (hi.symm.trans h)⟩, hi⟩

theorem find?_id_eq_none_iff (F : List Meal) (k : String) :
    F.find? (fun m => m.idMeal == k) = none ↔ isFav F k = false := by
  simp [isFav, List.find?_eq_none]

theorem isFav_append_singleton (F : List Meal) (m : Meal) (i : String) :
    isFav (F ++ [m]) i = (isFav F i || m.idMeal == i) := by
  simp [isFav]

theorem isFav_toggle_eq (F : List Meal) (m : Meal) (i : String) :
    isFav (toggleFavorite F m) i = if i = m.idMeal then !isFav F i else isFav F i := by
  unfold toggleFavorite
  cases hf : F.find? (fun x => x.idMeal == m.idMeal) with
  | none =>
    have hn := (find?_id_eq_none_iff F m.idMeal).1 hf
    simp only [isFav_append_singleton]
    by_cases h : i = m.idMeal
    · subst h; simp [hn]
    · have : ¬ m.idMeal = i := fun h2 => h h2.symm
      simp [h, this]
  | some x =>
    have hs : isFav F m.idMeal = true := by
      cases hb : isFav F m.idMeal with
      | true => rfl
      | false => rw [(find?_id_eq_none_iff F m.idMeal).2 hb] at hf; cases hf
    simp only [isFav_filter_ne]
    by_cases h : i = m.idMeal
    · subst h; simp [hs]
    · simp [h]

/-- C8: after `toggleFavorite(m)`, `isFav(i)` is negated for the id of `m`
and unchanged for every other id. -/
theorem isFav_toggleFavorite (F : List Meal) (m : Meal) (i : String) :
    isFav (toggleFavorite F m) i = if i = m.idMeal then !isFav F i else isFav F i :=
  isFav_toggle_eq F m i

theorem toggleFavorite_of_absent (F : List Meal) (m : Meal)
    (h : isFav F m.idMeal = false) : toggleFavorite F m = F ++ [m] := by
  unfold toggleFavorite
  rw [(find?_id_eq_none_iff F m.idMeal).2 h]

theorem toggleFavorite_of_present (F : List Meal) (m : Meal)
    (h : isFav F m.idMeal = true) :
    toggleFavorite F m = F.filter (fun x => x.idMeal != m.idMeal) := by
  unfold toggleFavorite
  cases hf : F.find? (fun x => x.idMeal == m.idMeal) with
  | none => rw [(find?_id_eq_none_iff F m.idMeal).1 hf] at h; cases h
  | some x => rfl

theorem filter_ne_of_absent (F : List Meal) (k : String) (h : isFav F k = false) :
    F.filter (fun x => x.idMeal != k) = F := by
  rw [List.filter_eq_self]
  intro a ha
  simp only [isFav, List.any_eq_false, beq_iff_eq] at h
  simpa using h a ha

theorem toggleFavorite_twice_eq (F : List Meal) (m : Meal) :
    toggleFavorite (toggleFavorite F m) m =
      F.filter (fun x => x.idMeal != m.idMeal) ++
        (if isFav F m.idMeal then [m] else []) := by
  cases h : isFav F m.idMeal with
  | false =>
    rw [toggleFavorite_of_absent F m h]
    have hp : isFav (F ++ [m]) m.idMeal = true := by simp [isFav]
    rw [toggleFavorite_of_present _ m hp, List.filter_append, filter_ne_of_absent F _ h]
    simp
  | true =>
    rw [toggleFavorite_of_present F m h]
    have ha : isFav (F.filter (fun x => x.idMeal != m.idMeal)) m.idMeal = false := by
      rw [isFav_filter_ne]; simp
    rw [toggleFavorite_of_absent _ m ha]
    simp

/-- C2, as stated, fails: toggling the first of two favorites twice moves it
behind the other one, so the list and the string written to storage both
differ from what they were. -/
theorem toggleFavorite_twice_reorders :
    toggleFavorite (toggleFavorite [sampleA, sampleB] sampleA) sampleA = [sampleB, sampleA] ∧
    toggleFavorite (toggleFavorite [sampleA, sampleB] sampleA) sampleA ≠ [sampleA, sampleB] ∧
    persistedFavorites (toggleFavorite (toggleFavorite [sampleA, sampleB] sampleA) sampleA) ≠
      persistedFavorites [sampleA, sampleB] := by
  decide

/-- C2 (amended): two successive `toggleFavorite(m)` keep the membership of
every id. When the id of `m` was not a favorite the list, and so the string
written to storage, is the one before; when it was, the result is the list
without the records of that id followed by `m`. -/
theorem toggleFavorite_twice (F : List Meal) (m : Meal) :
    (∀ i, isFav (toggleFavorite (toggleFavorite F m) m) i = isFav F i) ∧
    (isFav F m.idMeal = false →
      toggleFavorite (toggleFavorite F m) m = F ∧
      persistedFavorites (toggleFavorite (toggleFavorite F m) m) = persistedFavorites F) ∧
    (isFav F m.idMeal = true →
      toggleFavorite (toggleFavorite F m) m =
        F.filter (fun x => x.idMeal != m.idMeal) ++ [m]) := by
  refine ⟨fun i => ?_, fun h => ?_, fun h => ?_⟩
  · rw [isFav_toggle_eq, isFav_toggle_eq]
    split <;> simp
  · have e : toggleFavorite (toggleFavorite F m) m = F := by
      rw [toggleFavorite_twice_eq, h, filter_ne_of_absent F _ h]
      simp
    exact ⟨e, by rw [e]⟩
  · rw [toggleFavorite_twice_eq, h]
    simp

/-- C2 (amended), applied to a favorite that is present and to one that is
absent. -/
theorem toggleFavorite_twice_witness :
    isFav [sampleA, sampleB] sampleA.idMeal = true ∧
    toggleFavorite (toggleFavorite [sampleA, sampleB] sampleA) sampleA =
      [sampleA, sampleB].filter (fun x => x.idMeal != sampleA.idMeal) ++ [sampleA] ∧
    isFav [sampleB] sampleA.idMeal = false ∧
    toggleFavorite (toggleFavorite [sampleB] sampleA) sampleA = [sampleB] ∧
    persistedFavorites (toggleFavorite (toggleFavorite [sampleB] sampleA) sampleA) =
      persistedFavorites [sampleB] :=
  ⟨by decide, (toggleFavorite_twice [sampleA, sampleB] sampleA).2.2 (by decide),
   by decide, (toggleFavorite_twice [sampleB] sampleA).2.1 (by decide)⟩

/-! ## De-duplication and sorting -/

theorem define_keys (acc : JsObject) (k : String) (m : Meal) :
    (acc.define k m).map Prod.fst =
      if k ∈ acc.map Prod.fst then acc.map Prod.fst else acc.map Prod.fst ++ [k] := by
  induction acc with
  | nil => simp [JsObject.define]
  | cons p rest ih =>
    obtain ⟨k', m'⟩ := p
    by_cases h : k' = k
    · subst h; simp [JsObject.define]
    · have h2 : ¬ k = k' := fun e => h e.symm
      simp only [JsObject.define, h, ↓reduceIte, List.map_cons, ih, List.mem_cons, h2, false_or]
      split <;> simp

theorem mem_define (acc : JsObject) (k : String) (m : Meal) (p : String × Meal)
    (hp : p ∈ acc.define k m) : p = (k, m) ∨ p ∈ acc := by
  induction acc with
  | nil => simp [JsObject.define] at hp; exact Or.inl hp
  | cons q rest ih =>
    obtain ⟨k', m'⟩ := q
    by_cases h : k' = k
    · subst h
      simp only [JsObject.define, ↓reduceIte, List.mem_cons] at hp
      rcases hp with hp | hp
      · exact Or.inl hp
      · exact Or.inr (List.mem_cons_of_mem _ hp)
    · simp only [JsObject.define, h, ↓reduceIte, List.mem_cons] at hp
      rcases hp with hp | hp
      · exact Or.inr (hp ▸ List.mem_cons_self _ _)
      · rcases ih hp with h1 | h1
        · exact Or.inl h1
        · exact Or.inr (List.mem_cons_of_mem _ h1)

theorem assign_proto (acc : JsObject) (m : Meal) : acc.assign "__proto__" m = acc := by
  simp [JsObject.assign]

theorem assign_of_ne (acc : JsObject) (k : String) (m : Meal) (h : k ≠ "__proto__") :
    acc.assign k m = acc.define k m := by
  simp [JsObject.assign, h]

/-- What the `reduce` keeps true of `acc`: keys are distinct, every value is
stored under its own id, and the keys are the ids seen so far other than
`__proto__`. -/
theorem reduce_inv (finalMeals : List Meal) (acc : JsObject)
    (hnd : (acc.map Prod.fst).Nodup) (hid : ∀ p ∈ acc, p.2.idMeal = p.1) :
    ((finalMeals.foldl (fun acc m => acc.assign m.idMeal m) acc).map Prod.fst).Nodup ∧
    (∀ p ∈ finalMeals.foldl (fun acc m => acc.assign m.idMeal m) acc, p.2.idMeal = p.1) ∧
    (∀ k, k ∈ (finalMeals.foldl (fun acc m => acc.assign m.idMeal m) acc).map Prod.fst ↔
      k ∈ acc.map Prod.fst ∨ (k ∈ finalMeals.map Meal.idMeal ∧ k ≠ "__proto__")) := by
  induction finalMeals generalizing acc with
  | nil => exact ⟨hnd, hid, fun k => by simp⟩
  | cons m rest ih =>
    by_cases hp : m.idMeal = "__proto__"
    · obtain ⟨h1, h2, h3⟩ := ih acc hnd hid
      have e : (m :: rest).foldl (fun acc m => acc.assign m.idMeal m) acc =
          rest.foldl (fun acc m => acc.assign m.idMeal m) acc := by
        rw [List.foldl_cons, hp, assign_proto]
      rw [e]
      refine ⟨h1, h2, fun k => ?_⟩
      rw [h3 k]
      simp only [List.map_cons, List.mem_cons]
      constructor
      · rintro (h | ⟨h, hk⟩)
        · exact Or.inl h
        · exact Or.inr ⟨Or.inr h, hk⟩
      · rintro (h | ⟨h | h, hk⟩)
        · exact Or.inl h
        · exact absurd (h.trans hp) hk
        · exact Or.inr ⟨h, hk⟩
    · have hnd' : ((acc.assign m.idMeal m).map Prod.fst).Nodup := by
        rw [assign_of_ne _ _ _ hp, define_keys]
        split
        · exact hnd
        · rename_i hk
          exact List.Nodup.append hnd (List.nodup_singleton _) (by simpa using hk)
      have hid' : ∀ p ∈ acc.assign m.idMeal m, p.2.idMeal = p.1 := by
        intro p hq
        rw [assign_of_ne _ _ _ hp] at hq
        rcases mem_define acc _ _ p hq with h | h
        · subst h; rfl
        · exact hid p h
      obtain ⟨h1, h2, h3⟩ := ih (acc.assign m.idMeal m) hnd' hid'
      refine ⟨h1, h2, ?_⟩
      intro k
      rw [List.foldl_cons, h3 k, assign_of_ne _ _ _ hp, define_keys]
      split
      · rename_i hk
        simp only [List.map_cons, List.mem_cons]
        constructor
        · rintro (h | ⟨h, hk2⟩)
          · exact Or.inl h
          · exact Or.inr ⟨Or.inr h, hk2⟩
        · rintro (h | ⟨h | h, hk2⟩)
          · exact Or.inl h
          · exact Or.inl (h ▸ hk)
          · exact Or.inr ⟨h, hk2⟩
      · simp only [List.mem_append, List.mem_singleton, List.map_cons, List.mem_cons,
          List.not_mem_nil, or_false]
        constructor
        · rintro ((h | h) | ⟨h, hk2⟩)
          · exact Or.inl h
          · exact Or.inr ⟨Or.inl h, h ▸ hp⟩
          · exact Or.inr ⟨Or.inr h, hk2⟩
        · rintro (h | ⟨h | h, hk2⟩)
          · exact Or.inl (Or.inl h)
          · exact Or.inl (Or.inr h)
          · exact Or.inr ⟨h, hk2⟩

theorem values_perm (acc : JsObject) : acc.values.Perm (acc.map Prod.snd) := by
  unfold JsObject.values
  have h1 : ((acc.filterMap fun p => (arrayIndex? p.1).map fun n => (n, p.2)).map (·.2)) =
      (acc.filter fun p => (arrayIndex? p.1).isSome).map Prod.snd := by
    induction acc with
    | nil => rfl
    | cons p rest ih =>
      cases h : arrayIndex? p.1 with
      | none => simp [List.filterMap_cons, List.filter_cons, h]; simpa using ih
      | some n => simp [List.filterMap_cons, List.filter_cons, h]; simpa using ih
  have h2 := ((List.perm_insertionSort (fun a b : Nat × Meal => a.1 ≤ b.1)
    (acc.filterMap fun p => (arrayIndex? p.1).map fun n => (n, p.2))).map (·.2))
  rw [h1] at h2
  have h3 : ((acc.filter fun p => (arrayIndex? p.1).isSome) ++
      (acc.filter fun p => (arrayIndex? p.1).isNone)).Perm acc := by
    have := List.filter_append_perm (fun p : String × Meal => (arrayIndex? p.1).isSome) acc
    convert this using 2
    apply List.filter_congr
    intro x _
    cases arrayIndex? x.1 <;> rfl
  have h4 := h3.map Prod.snd
  rw [List.map_append] at h4
  exact (List.Perm.append_right _ h2).trans h4

theorem dedupSort_perm (cmp : String → String → Int) (finalMeals : List Meal) :
    (dedupSort cmp finalMeals).Perm
      ((finalMeals.foldl (fun acc m => JsObject.assign acc m.idMeal m) []).map Prod.snd) := by
  unfold dedupSort sortByName
  exact (List.perm_insertionSort _ _).trans (values_perm _)

theorem dedupSort_ids (cmp : String → String → Int) (finalMeals : List Meal) :
    ((dedupSort cmp finalMeals).map Meal.idMeal).Perm
      ((finalMeals.foldl (fun acc m => JsObject.assign acc m.idMeal m) []).map Prod.fst) := by
  have h := (dedupSort_perm cmp finalMeals).map Meal.idMeal
  have hinv := reduce_inv finalMeals [] (by simp) (by simp)
  have e : ((finalMeals.foldl (fun acc m => JsObject.assign acc m.idMeal m) []).map Prod.snd).map
      Meal.idMeal = (finalMeals.foldl (fun acc m => JsObject.assign acc m.idMeal m) []).map
      Prod.fst := by
    rw [List.map_map]
    apply List.map_congr_left
    intro p hp
    exact hinv.2.1 p hp
  rw [e] at h
  exact h

theorem dedupSort_sorted (cmp : String → String → Int)
    (htotal : ∀ a b, cmp a b ≤ 0 ∨ cmp b a ≤ 0)
    (htrans : ∀ a b c, cmp a b ≤ 0 → cmp b c ≤ 0 → cmp a c ≤ 0) (finalMeals : List Meal) :
    (dedupSort cmp finalMeals).Pairwise (fun a b => cmp a.strMeal b.strMeal ≤ 0) := by
  unfold dedupSort sortByName
  haveI : IsTotal Meal (fun a b => cmp a.strMeal b.strMeal ≤ 0) := ⟨fun a b => htotal _ _⟩
  haveI : IsTrans Meal (fun a b => cmp a.strMeal b.strMeal ≤ 0) :=
    ⟨fun a b c h1 h2 => htrans _ _ _ h1 h2⟩
  exact List.sorted_insertionSort (fun a b : Meal => cmp a.strMeal b.strMeal ≤ 0) _

/-- The list that `runSearch` stores for a non-empty combined list: its ids are
the ids of the combined list other than `__proto__`, no id occurs twice, and it
is ascending for the name comparison, provided the comparison is a total
preorder: every entry is at most each later entry, so no entry comes before one
with a strictly smaller name. -/
theorem runSearch_stores_unique_sorted (cmp : String → String → Int)
    (htotal : ∀ a b, cmp a b ≤ 0 ∨ cmp b a ≤ 0)
    (htrans : ∀ a b c, cmp a b ≤ 0 → cmp b c ≤ 0 → cmp a c ≤ 0)
    (s : AppState) (lists : List (List Meal)) (hne : combine lists ≠ []) :
    (∀ id, id ∈ (runSearchEnd cmp (some lists) s).meals.map Meal.idMeal ↔
      id ∈ (combine lists).map Meal.idMeal ∧ id ≠ "__proto__") ∧
    ((runSearchEnd cmp (some lists) s).meals.map Meal.idMeal).Nodup ∧
    (runSearchEnd cmp (some lists) s).meals.Pairwise
      (fun a b => cmp a.strMeal b.strMeal ≤ 0) ∧
    (runSearchEnd cmp (some lists) s).meals.Pairwise
      (fun a b => ¬ (cmp b.strMeal a.strMeal ≤ 0 ∧ ¬ cmp a.strMeal b.strMeal ≤ 0)) := by
  have hlen : ¬ (combine lists).length = 0 := fun h => hne (List.length_eq_zero.1 h)
  have hm : (runSearchEnd cmp (some lists) s).meals = dedupSort cmp (combine lists) := by
    simp only [runSearchEnd, hlen, ↓reduceIte]
  rw [hm]
  have hinv := reduce_inv (combine lists) [] (by simp) (by simp)
  have hids := dedupSort_ids cmp (combine lists)
  have hsorted := dedupSort_sorted cmp htotal htrans (combine lists)
  refine ⟨fun id => ?_, hids.nodup_iff.2 hinv.1, hsorted, ?_⟩
  · rw [hids.mem_iff, hinv.2.2 id]
    simp
  · exact hsorted.imp (fun hab hba => hba.2 hab)

/-- The stored list of a search with one list of two records and names
compared by length has no id twice. -/
theorem runSearch_stores_unique_sorted_witness :
    combine [[sampleB, sampleA]] ≠ [] ∧
    ((runSearchEnd lengthCompare (some [[sampleB, sampleA]])
      AppState.init).meals.map Meal.idMeal).Nodup :=
  ⟨by decide,
   (runSearch_stores_unique_sorted lengthCompare lengthCompare_total lengthCompare_trans
      AppState.init [[sampleB, sampleA]] (by decide)).2.1⟩

/-- C3, evaluated where it fails: for a search whose only answer is the one
record with id `__proto__`, the combined list is not empty, yet the
de-duplicate step keeps nothing: the stored list is empty and no message is
set. Next to an ordinary record, the record with id `__proto__` is the one
that is lost. -/
theorem runSearch_drops_proto_record :
    combine [[sampleProto]] ≠ [] ∧
    sampleProto.idMeal ∈ (combine [[sampleProto]]).map Meal.idMeal ∧
    (runSearchEnd lengthCompare (some [[sampleProto]]) AppState.init).meals = [] ∧
    (runSearchEnd lengthCompare (some [[sampleProto]]) AppState.init).error = none ∧
    (runSearchEnd lengthCompare (some [[sampleProto, sampleA]]) AppState.init).meals =
      [sampleA] := by
  decide

/-! ## Query builder -/

theorem fetchAll_issued (api : Query → Option (List Meal)) (qs : List Query) :
    (fetchAll api qs).1 =
      qs.takeWhile (fun q => (api q).isSome) ++
        (qs.dropWhile (fun q => (api q).isSome)).take 1 := by
  induction qs with
  | nil => rfl
  | cons q qs ih =>
    cases h : api q with
    | none => simp [fetchAll, h, List.takeWhile_cons, List.dropWhile_cons]
    | some l => simp [fetchAll, h, List.takeWhile_cons, List.dropWhile_cons, ih]

theorem plannedQueries_eq_spec (s : AppState)
    (hmode : s.mode = "ingredient" ∨ s.mode = "name") :
    plannedQueries s.mode s.query s.category s.area = specQueries s := by
  unfold plannedQueries specQueries baseQueries
  rcases hmode with h | h
  · by_cases ht : jsTrim s.query = ""
    · simp [h, ht]
    · simp [h, ht]
  · have hn : ¬ s.mode = "ingredient" := by rw [h]; decide
    by_cases ht : jsTrim s.query = ""
    · simp [h, ht]
    · simp [h, ht]

theorem takeWhile_all {α : Type} (p : α → Bool) (l : List α) (h : ∀ x ∈ l, p x = true) :
    l.takeWhile p ++ (l.dropWhile p).take 1 = l := by
  induction l with
  | nil => rfl
  | cons a l ih =>
    have ha := h a (List.mem_cons_self _ _)
    simp only [List.takeWhile_cons, List.dropWhile_cons, ha, ↓reduceIte, List.cons_append]
    rw [ih (fun x hx => h x (List.mem_cons_of_mem _ hx))]

theorem specQueries_length (s : AppState) :
    (specQueries s).length =
      1 + (if s.category ≠ "" then 1 else 0) + (if s.area ≠ "" then 1 else 0) := by
  unfold specQueries
  by_cases hc : s.category = "" <;> by_cases ha : s.area = "" <;> simp [hc, ha]

/-- C4, as stated, fails: with the category `Seafood` and a catalog that is
down, the base request throws and the category request is never made, so one
request is issued where the claim counts two. -/
theorem runSearch_failed_request_ends_search :
    sampleSeafood.mode = "ingredient" ∧ sampleSeafood.category ≠ "" ∧
    issuedQueries apiDown sampleSeafood = [Query.byName ""] ∧
    Query.byCategory sampleSeafood.category ∉ issuedQueries apiDown sampleSeafood ∧
    (issuedQueries apiDown sampleSeafood).length ≠
      1 + (if sampleSeafood.category ≠ "" then 1 else 0) +
        (if sampleSeafood.area ≠ "" then 1 else 0) := by
  decide

/-- C4 (amended): in mode `ingredient` or `name`, the requests `runSearch`
makes are the requests of the specification (the base request with the trimmed
text, the category request iff the category is not empty, the area request iff
the area is not empty), in that order, up to and including the first one that
fails; when none fails they are all made, and their number is
`1 + [category non-empty] + [area non-empty]`. -/
theorem runSearch_issued_queries (api : Query → Option (List Meal)) (s : AppState)
    (hmode : s.mode = "ingredient" ∨ s.mode = "name") :
    issuedQueries api s =
      (specQueries s).takeWhile (fun q => (api q).isSome) ++
        ((specQueries s).dropWhile (fun q => (api q).isSome)).take 1 ∧
    ((∀ q ∈ specQueries s, api q ≠ none) →
      issuedQueries api s = specQueries s ∧
      (issuedQueries api s).length =
        1 + (if s.category ≠ "" then 1 else 0) + (if s.area ≠ "" then 1 else 0)) := by
  have h1 : issuedQueries api s =
      (specQueries s).takeWhile (fun q => (api q).isSome) ++
        ((specQueries s).dropWhile (fun q => (api q).isSome)).take 1 := by
    unfold issuedQueries
    rw [fetchAll_issued, plannedQueries_eq_spec s hmode]
  refine ⟨h1, fun hall => ?_⟩
  have h2 : issuedQueries api s = specQueries s := by
    rw [h1]
    apply takeWhile_all
    intro q hq
    cases h : api q with
    | none => exact absurd h (hall q hq)
    | some l => rfl
  exact ⟨h2, by rw [h2, specQueries_length]⟩

/-- C4 (amended), applied to the category `Seafood` and a catalog that
answers every request. -/
theorem runSearch_issued_queries_witness :
    (sampleSeafood.mode = "ingredient" ∨ sampleSeafood.mode = "name") ∧
    issuedQueries apiOne sampleSeafood = specQueries sampleSeafood :=
  ⟨Or.inl rfl,
   ((runSearch_issued_queries apiOne sampleSeafood (Or.inl rfl)).2
      (fun q _ h => by simp [apiOne] at h)).1⟩

/-! ## Pager -/

theorem one_le_totalPages (len : Nat) : 1 ≤ totalPages len := by
  unfold totalPages
  exact le_max_left _ _

theorem ceil_div_pageSize (len : Nat) :
    Int.ceil ((len : ℚ) / (pageSize : ℚ)) = (((len + pageSize - 1) / pageSize : Nat) : Int) := by
  rw [Int.ceil_eq_iff]
  simp only [pageSize]
  have h1 : 12 * ((len + 12 - 1) / 12) ≤ len + 11 := by omega
  have h3 : len ≤ 12 * ((len + 12 - 1) / 12) := by omega
  generalize (len + 12 - 1) / 12 = q at h1 h3 ⊢
  have h1q : (12 : ℚ) * (q : ℚ) ≤ (len : ℚ) + 11 := by exact_mod_cast h1
  have h3q : (len : ℚ) ≤ 12 * (q : ℚ) := by exact_mod_cast h3
  have e : ((q : ℤ) : ℚ) = (q : ℚ) := by norm_cast
  have e12 : ((12 : ℕ) : ℚ) = 12 := by norm_cast
  rw [e, e12]
  constructor
  · rw [lt_div_iff₀ (by norm_num)]
    linarith
  · rw [div_le_iff₀ (by norm_num)]
    linarith

theorem go_bounds (tp p : Int) (htp : 1 ≤ tp) :
    1 ≤ Pagination.go tp p ∧ Pagination.go tp p ≤ tp := by
  unfold Pagination.go
  omega

theorem go_of_mem (tp p : Int) (h1 : 1 ≤ p) (h2 : p ≤ tp) : Pagination.go tp p = p := by
  unfold Pagination.go
  omega

/-- C5: `totalPages` is `max(1, ceil(L / 12))` for a result list of length
`L`; for every requested page `p`, `go` stores a page in `[1, totalPages]`,
which is `p` itself when `p` is in that range; so the slice for the request
`totalPages + 5` is the slice for the request `totalPages`. -/
theorem pagination_bound (meals : List Meal) (p : Int) :
    totalPages meals.length = max 1 (Int.ceil ((meals.length : ℚ) / (pageSize : ℚ))) ∧
    1 ≤ Pagination.go (totalPages meals.length) p ∧
    Pagination.go (totalPages meals.length) p ≤ totalPages meals.length ∧
    (1 ≤ p → p ≤ totalPages meals.length → Pagination.go (totalPages meals.length) p = p) ∧
    pagedMeals meals (Pagination.go (totalPages meals.length) (totalPages meals.length + 5)) =
      pagedMeals meals (Pagination.go (totalPages meals.length) (totalPages meals.length)) := by
  have htp := one_le_totalPages meals.length
  refine ⟨?_, (go_bounds _ p htp).1, (go_bounds _ p htp).2, go_of_mem _ p, ?_⟩
  · rw [ceil_div_pageSize]; rfl
  · have e1 : Pagination.go (totalPages meals.length) (totalPages meals.length + 5) =
        totalPages meals.length := by
      unfold Pagination.go; omega
    have e2 : Pagination.go (totalPages meals.length) (totalPages meals.length) =
        totalPages meals.length := by
      unfold Pagination.go; omega
    rw [e1, e2]

/-- C5, applied to thirteen results and the request for page 2. -/
theorem pagination_bound_witness :
    (1 : Int) ≤ 2 ∧ (2 : Int) ≤ totalPages sampleThirteen.length ∧
    Pagination.go (totalPages sampleThirteen.length) 2 = 2 :=
  ⟨by decide, by decide,
   (pagination_bound sampleThirteen 2).2.2.2.1 (by decide) (by decide)⟩

/-! ## Page-state invariant -/

theorem pageInv_of_page_one (s : AppState) (h : s.page = 1) : PageInv s := by
  unfold PageInv
  rw [h]
  exact ⟨le_refl _, one_le_totalPages _⟩

theorem runSearchEnd_page (cmp : String → String → Int) (fetched : Option (List (List Meal)))
    (s : AppState) : (runSearchEnd cmp fetched s).page = s.page := by
  unfold runSearchEnd
  cases fetched with
  | none => rfl
  | some lists => dsimp only; split <;> rfl

theorem runSearchEnd_inFlight (cmp : String → String → Int)
    (fetched : Option (List (List Meal))) (s : AppState) :
    (runSearchEnd cmp fetched s).inFlight = s.inFlight := by
  unfold runSearchEnd
  cases fetched with
  | none => rfl
  | some lists => dsimp only; split <;> rfl

theorem navigate_pageInv (s t : AppState) (disabled : Bool) (p : Int)
    (h : navigate s disabled p = some t) :
    PageInv t ∧ t.inFlight = s.inFlight ∧ t.loading = s.loading ∧ s.loading = false := by
  unfold navigate at h
  split at h
  · rename_i hs
    cases h
    refine ⟨go_bounds _ p (one_le_totalPages _), rfl, rfl, ?_⟩
    simp only [paginationShown, Bool.and_eq_true, Bool.not_eq_true'] at hs
    exact hs.1.1.1.1
  · cases h

theorem settle_spec (cmp : String → String → Int) (api : Query → Option (List Meal))
    (k : Nat) (s t : AppState) (h : runSearchSettle cmp api k s = some t) :
    t.page = s.page ∧ t.inFlight = s.inFlight.eraseIdx k ∧ k < s.inFlight.length := by
  unfold runSearchSettle at h
  cases hk : s.inFlight.get? k with
  | none => rw [hk] at h; cases h
  | some queries =>
    rw [hk] at h
    cases h
    refine ⟨by rw [runSearchEnd_page], by rw [runSearchEnd_inFlight], ?_⟩
    exact (List.get?_eq_some.1 hk).1

theorem seqInv_step (cmp : String → String → Int) (s t : AppState) (e : AppEvent)
    (hs : SeqInv s) (hstep : s.step cmp e = some t)
    (hno : searchAllowed s e = true) : SeqInv t := by
  obtain ⟨h1, h2, h3⟩ := hs
  cases e with
  | searchBegin =>
    simp only [searchAllowed, List.isEmpty_iff] at hno
    simp only [AppState.step, Option.some.injEq] at hstep
    subst hstep
    refine ⟨pageInv_of_page_one _ rfl, fun _ => ⟨rfl, rfl⟩, ?_⟩
    simp [runSearchBegin, hno]
  | searchSettle api k =>
    simp only [AppState.step] at hstep
    obtain ⟨hp, hf, hk⟩ := settle_spec cmp api k s t hstep
    have hne : s.inFlight ≠ [] := by
      intro h; rw [h] at hk; simp at hk
    have hlen : t.inFlight.length = 0 := by
      rw [hf, List.length_eraseIdx]
      simp only [hk, ↓reduceIte]
      omega
    have hnil : t.inFlight = [] := List.length_eq_zero.1 hlen
    refine ⟨pageInv_of_page_one _ (hp.trans (h2 hne).1), fun h => absurd hnil h, ?_⟩
    rw [hlen]; omega
  | clear =>
    simp only [AppState.step, Option.some.injEq] at hstep
    subst hstep
    exact ⟨pageInv_of_page_one _ rfl, fun h => ⟨rfl, (h2 h).2⟩, h3⟩
  | first =>
    obtain ⟨a, b, c, d⟩ := navigate_pageInv _ _ _ _ hstep
    refine ⟨a, fun h => ?_, by rw [b]; exact h3⟩
    rw [b] at h
    rw [(h2 h).2] at d; cases d
  | prev =>
    obtain ⟨a, b, c, d⟩ := navigate_pageInv _ _ _ _ hstep
    refine ⟨a, fun h => ?_, by rw [b]; exact h3⟩
    rw [b] at h
    rw [(h2 h).2] at d; cases d
  | next =>
    obtain ⟨a, b, c, d⟩ := navigate_pageInv _ _ _ _ hstep
    refine ⟨a, fun h => ?_, by rw [b]; exact h3⟩
    rw [b] at h
    rw [(h2 h).2] at d; cases d
  | last =>
    obtain ⟨a, b, c, d⟩ := navigate_pageInv _ _ _ _ hstep
    refine ⟨a, fun h => ?_, by rw [b]; exact h3⟩
    rw [b] at h
    rw [(h2 h).2] at d; cases d

theorem seqInv_run (cmp : String → String → Int) (es : List AppEvent) :
    ∀ s t : AppState, SeqInv s → noOverlap cmp s es = true → s.run cmp es = some t →
      SeqInv t := by
  induction es with
  | nil =>
    intro s t hs _ hrun
    simp only [AppState.run, Option.some.injEq] at hrun
    exact hrun ▸ hs
  | cons e es ih =>
    intro s t hs hno hrun
    simp only [noOverlap, Bool.and_eq_true] at hno
    simp only [AppState.run] at hrun
    cases hstep : s.step cmp e with
    | none => rw [hstep] at hrun; cases hrun
    | some u =>
      rw [hstep] at hrun
      have hno2 := hno.2
      rw [hstep] at hno2
      exact ih u t (seqInv_step cmp s u e hs hstep hno.1) hno2 hrun

theorem seqInv_init : SeqInv AppState.init :=
  ⟨by decide, fun h => absurd rfl h, by decide⟩

theorem step_pageInv_of_not_settle (cmp : String → String → Int) (s t : AppState)
    (e : AppEvent) (hstep : s.step cmp e = some t)
    (hne : ∀ api k, e ≠ AppEvent.searchSettle api k) : PageInv t := by
  cases e with
  | searchBegin =>
    simp only [AppState.step, Option.some.injEq] at hstep
    subst hstep
    exact pageInv_of_page_one _ rfl
  | searchSettle api k => exact absurd rfl (hne api k)
  | clear =>
    simp only [AppState.step, Option.some.injEq] at hstep
    subst hstep
    exact pageInv_of_page_one _ rfl
  | first => exact (navigate_pageInv _ _ _ _ hstep).1
  | prev => exact (navigate_pageInv _ _ _ _ hstep).1
  | next => exact (navigate_pageInv _ _ _ _ hstep).1
  | last => exact (navigate_pageInv _ _ _ _ hstep).1

theorem runSearch_page (cmp : String → String → Int) (api : Query → Option (List Meal))
    (s : AppState) : (runSearch cmp api s).page = 1 := by
  unfold runSearch
  rw [runSearchEnd_page]
  rfl

/-- C6, as stated, fails: when two searches overlap, the first can settle
with thirteen records, the user can go to page 2, and the second search then
stores its single record while the page number is still 2, which is outside
`[1, totalPages] = [1, 1]`. -/
theorem overlapping_searches_break_invariant :
    (AppState.init.run lengthCompare overlappingSearches).map
      (fun s => (s.page, s.meals.length, totalPages s.meals.length, decide (PageInv s))) =
      some (2, 1, 1, false) := by
  decide

/-- C6 (amended): the page invariant holds in the initial state and after
every step that is not the completion of a search: the start of a search
(which empties the result list and sets the page to 1), Clear, and
First/Prev/Next/Last. The completion of a search stores its result without
touching the page number, so it keeps the invariant when the page is 1 at
that moment. That is so for a search that runs from start to end with nothing
in between, and in every run in which searches do not overlap: there the
invariant holds in every state, and the page is 1 while a search is
suspended. -/
theorem page_invariant (cmp : String → String → Int) :
    PageInv AppState.init ∧
    (∀ s t e, AppState.step cmp s e = some t →
      (∀ api k, e ≠ AppEvent.searchSettle api k) → PageInv t) ∧
    (∀ s, (runSearchBegin s).page = 1 ∧ (runSearchBegin s).meals = []) ∧
    (∀ s t api k, AppState.step cmp s (AppEvent.searchSettle api k) = some t →
      t.page = s.page ∧ (s.page = 1 → PageInv t)) ∧
    (∀ api s, (runSearch cmp api s).page = 1 ∧ PageInv (runSearch cmp api s)) ∧
    (∀ es s, noOverlap cmp AppState.init es = true → AppState.init.run cmp es = some s →
      PageInv s ∧ (s.inFlight ≠ [] → s.page = 1)) := by
  refine ⟨by decide, fun s t e h hne => step_pageInv_of_not_settle cmp s t e h hne,
    fun s => ⟨rfl, rfl⟩, fun s t api k h => ?_, fun api s => ?_, fun es s hno hrun => ?_⟩
  · have hp := (settle_spec cmp api k s t h).1
    exact ⟨hp, fun h1 => pageInv_of_page_one t (hp.trans h1)⟩
  · exact ⟨runSearch_page cmp api s, pageInv_of_page_one _ (runSearch_page cmp api s)⟩
  · have hinv := seqInv_run cmp es AppState.init s seqInv_init hno hrun
    exact ⟨hinv.1, fun h => (hinv.2.1 h).1⟩

/-- C6 (amended), applied to a run with one search and a click on Next. -/
theorem page_invariant_witness :
    noOverlap lengthCompare AppState.init oneSearch = true ∧
    AppState.init.run lengthCompare oneSearch = some oneSearchFinal ∧
    PageInv oneSearchFinal :=
  ⟨by decide, by decide,
   ((page_invariant lengthCompare).2.2.2.2.2 oneSearch oneSearchFinal
      (by decide) (by decide)).1⟩

/-! ## Ingredient list -/

theorem jsTrim_empty : jsTrim "" = "" := by decide

theorem ingredientStep_eq (detail : MealDetail) (acc : List String) (i : Nat) :
    ingredientStep detail acc i =
      acc ++ (if slotIncluded detail i then [slotEntry detail i] else []) := by
  unfold ingredientStep slotIncluded slotEntry
  cases hi : detail.strIngredient i with
  | none => simp
  | some ing =>
    dsimp only
    by_cases ht : jsTrim ing = ""
    · simp [ht]
    · have hne : ing ≠ "" := fun h => ht (h ▸ jsTrim_empty)
      simp only [bne_iff_ne, ne_eq, hne, not_false_eq_true, ht, Bool.and_self, ↓reduceIte,
        ingredientEntry]
      cases hm : detail.strMeasure i with
      | none => simp [hne, ht]
      | some meas =>
        by_cases hme : meas = ""
        · simp [hme, hne, ht]
        · simp [hme, hne, ht, String.append_assoc]

theorem foldl_ingredientStep (detail : MealDetail) (slots : List Nat) (acc : List String) :
    slots.foldl (ingredientStep detail) acc =
      acc ++ (slots.filter (slotIncluded detail)).map (slotEntry detail) := by
  induction slots generalizing acc with
  | nil => simp
  | cons i slots ih =>
    rw [List.foldl_cons, ih, ingredientStep_eq]
    by_cases h : slotIncluded detail i = true
    · simp [List.filter_cons, h]
    · simp [List.filter_cons, h]

/-- C9: the ingredient list has one entry for each slot from 1 to 20 whose
ingredient name is present and not empty after trimming, in ascending slot
order, so at most 20 entries; the entry of such a slot is the ingredient name
alone when the measure is missing or empty, and the ingredient name, the
separator and the measure otherwise. -/
theorem ingredients_spec (detail : MealDetail) :
    ingredients detail =
      ((List.range' 1 20).filter (slotIncluded detail)).map (slotEntry detail) ∧
    (ingredients detail).length ≤ 20 ∧
    (∀ i, slotIncluded detail i = true →
      ∀ ing, detail.strIngredient i = some ing →
        (detail.strMeasure i = none ∨ detail.strMeasure i = some "" →
          slotEntry detail i = ing) ∧
        (∀ meas, detail.strMeasure i = some meas → meas ≠ "" →
          slotEntry detail i = ing ++ " — " ++ meas)) := by
  have h : ingredients detail =
      ((List.range' 1 20).filter (slotIncluded detail)).map (slotEntry detail) := by
    unfold ingredients
    rw [foldl_ingredientStep]
    rfl
  refine ⟨h, ?_, ?_⟩
  · rw [h, List.length_map]
    exact (List.length_filter_le _ _).trans (by simp)
  · intro i _ ing hing
    refine ⟨fun hm => ?_, fun meas hm hne => ?_⟩
    · unfold slotEntry
      rcases hm with hm | hm
      · rw [hing, hm]
      · rw [hing, hm]; simp
    · unfold slotEntry
      rw [hing, hm]
      simp [hne]

/-- C9, applied to a record with salt and its measure in slot 2. -/
theorem ingredients_spec_witness :
    slotIncluded sampleDetail 2 = true ∧
    slotEntry sampleDetail 2 = "salt" ++ " — " ++ "1 tsp" ∧
    ingredients sampleDetail = ["salt — 1 tsp", "egg"] :=
  ⟨by decide,
   ((ingredients_spec sampleDetail).2.2 2 (by decide) "salt" rfl).2 "1 tsp" rfl (by decide),
   by decide⟩

/-! ## Detail overlay -/

theorem response_overwrites (s t : DetailState) (k : Nat) (r : LookupResult)
    (h : s.step (DetailEvent.response k r) = some t) :
    t.activeId = s.activeId ∧ t.detailLoading = false ∧
    storedResult s t r := by
  simp only [DetailState.step] at h
  cases hk : s.pending.get? k with
  | none => rw [hk] at h; cases h
  | some id =>
    rw [hk] at h
    simp only [Option.some.injEq] at h
    subst h
    cases r <;> exact ⟨rfl, rfl, rfl, rfl⟩

theorem detailInv_step (s t : DetailState) (e : DetailEvent) (hs : DetailInv s)
    (hstep : s.step e = some t) (hf : responseFresh s e = true) : DetailInv t := by
  cases e with
  | opened id =>
    simp only [DetailState.step, Option.some.injEq] at hstep
    subst hstep
    intro d hd
    cases hd
  | closed =>
    simp only [DetailState.step, Option.some.injEq] at hstep
    subst hstep
    intro d hd
    cases hd
  | response k r =>
    obtain ⟨ha, _, hr⟩ := response_overwrites s t k r hstep
    simp only [responseFresh] at hf
    cases hk : s.pending.get? k with
    | none => rw [hk] at hf; cases hf
    | some id =>
      rw [hk] at hf
      simp only [Bool.and_eq_true, beq_iff_eq] at hf
      intro d hd
      cases r with
      | found d' =>
        simp only [storedResult] at hr
        rw [hr.1] at hd
        cases hd
        have hid : d.idMeal = id := by simpa [LookupResult.answers] using hf.2
        rw [ha, hf.1, hid]
      | notFound =>
        simp only [storedResult] at hr
        rw [hr.1] at hd; cases hd
      | failed =>
        simp only [storedResult] at hr
        rw [hr.1] at hd
        rw [ha]
        exact hs d hd

theorem detailInv_run (es : List DetailEvent) :
    ∀ s t : DetailState, DetailInv s → noStale s es = true → s.run es = some t →
      DetailInv t := by
  induction es with
  | nil =>
    intro s t hs _ hrun
    simp only [DetailState.run, Option.some.injEq] at hrun
    exact hrun ▸ hs
  | cons e es ih =>
    intro s t hs hno hrun
    simp only [noStale, Bool.and_eq_true] at hno
    simp only [DetailState.run] at hrun
    cases hstep : s.step e with
    | none => rw [hstep] at hrun; cases hrun
    | some u =>
      rw [hstep] at hrun
      have hno2 := hno.2
      rw [hstep] at hno2
      exact ih u t (detailInv_step s u e hs hstep hno.1) hno2 hrun

theorem detailInv_init : DetailInv DetailState.init := by
  intro d hd
  cases hd

/-- C10, as stated, fails: after `openDetails` for id 1 and then for id 2,
the response to the lookup of id 1 stores its record and clears the loading
flag although the active id is 2. -/
theorem stale_response_overwrites_detail :
    (DetailState.init.run (staleResponse.take 2)).map (fun s => (s.activeId, s.shown)) =
      some (some "2", none, none, true) ∧
    (DetailState.init.run staleResponse).map (fun s => (s.activeId, s.shown)) =
      some (some "2", some "1", none, false) := by
  decide

/-- C10 (amended): the response to a lookup is applied whatever id is active:
it leaves the active id as it is, clears the loading flag and stores the
record, or the error message when there is no record or the lookup threw. A
loaded record belongs to the active id in every state reached by a run without
stale response, that is, a run in which every response arrives while the id it
was requested for is the active one and carries a record of that id. -/
theorem detail_overlay_responses :
    (∀ s t k r, DetailState.step s (DetailEvent.response k r) = some t →
      t.activeId = s.activeId ∧ t.detailLoading = false ∧
      storedResult s t r) ∧
    (∀ es s, noStale DetailState.init es = true → DetailState.init.run es = some s →
      ∀ d, s.detail = some d → s.activeId = some d.idMeal) :=
  ⟨fun s t k r h => response_overwrites s t k r h,
   fun es s hno hrun => detailInv_run es DetailState.init s detailInv_init hno hrun⟩

/-- C10 (amended), applied to a run in which the lookup of the active id
settles with its record. -/
theorem detail_overlay_responses_witness :
    noStale DetailState.init freshResponse = true ∧
    DetailState.init.run freshResponse = some freshResponseFinal ∧
    freshResponseFinal.activeId = some sampleDetail.idMeal :=
  ⟨by decide, rfl,
   detail_overlay_responses.2 freshResponse freshResponseFinal (by decide) rfl
     sampleDetail rfl⟩

/-! ## Result combiner: lists without repeated ids -/

theorem get_cons (a : String) (b : Nat) (rest : CountMap) (k : String) :
    CountMap.get ((a, b) :: rest) k = if k = a then some b else CountMap.get rest k := by
  unfold CountMap.get
  rw [List.lookup_cons]
  by_cases h : k = a
  · subst h; simp
  · have hb : (k == a) = false := by simpa using h
    rw [hb]
    simp [h]

theorem get_set (map : CountMap) (k k' : String) (v : Nat) :
    (map.set k v).get k' = if k' = k then some v else map.get k' := by
  induction map with
  | nil =>
    rw [CountMap.set, get_cons]
  | cons p rest ih =>
    obtain ⟨a, b⟩ := p
    by_cases hak : a = k
    · subst hak
      rw [CountMap.set, if_pos rfl, get_cons, get_cons]
      by_cases h : k' = a
      · simp [h]
      · simp [h]
    · rw [CountMap.set, if_neg hak, get_cons, get_cons, ih]
      by_cases h2 : k' = a
      · subst h2
        simp [hak]
      · simp [h2]

theorem count_set (map : CountMap) (k k' : String) (v : Nat) :
    (map.set k v).count k' = if k' = k then v else map.count k' := by
  unfold CountMap.count
  rw [get_set]
  split <;> rfl

theorem count_countList (list : List Meal) (map : CountMap) (k : String) :
    (countList map list).count k = map.count k + list.countP (fun m => m.idMeal == k) := by
  induction list generalizing map with
  | nil => simp [countList]
  | cons m rest ih =>
    have hstep : countList map (m :: rest) =
        countList (map.set m.idMeal ((map.get m.idMeal).getD 0 + 1)) rest := rfl
    rw [hstep, ih, count_set, List.countP_cons]
    by_cases h : k = m.idMeal
    · subst h; simp [CountMap.count]; omega
    · have h2 : ¬ m.idMeal = k := fun e => h e.symm
      simp [h, h2]

theorem count_foldl_countList (ls : List (List Meal)) (map : CountMap) (k : String) :
    (ls.foldl countList map).count k = map.count k + occurrences ls k := by
  induction ls generalizing map with
  | nil => simp [occurrences]
  | cons l rest ih =>
    rw [List.foldl_cons, ih, count_countList]
    simp [occurrences]; omega

theorem count_countAll (ls : List (List Meal)) (k : String) :
    (countAll ls).count k = occurrences ls k := by
  unfold countAll
  rw [count_foldl_countList]
  simp [CountMap.count, CountMap.get]

theorem countP_id_le_one (l : List Meal) (k : String) (hnd : (l.map Meal.idMeal).Nodup) :
    l.countP (fun m => m.idMeal == k) ≤ 1 := by
  induction l with
  | nil => simp
  | cons a rest ih =>
    rw [List.map_cons, List.nodup_cons] at hnd
    rw [List.countP_cons]
    by_cases h : a.idMeal = k
    · have hz : rest.countP (fun m => m.idMeal == k) = 0 := by
        rw [List.countP_eq_zero]
        intro x hx hxk
        apply hnd.1
        rw [List.mem_map]
        exact ⟨x, hx, by rw [h]; simpa using hxk⟩
      simp [hz, h]
    · have := ih hnd.2
      simp [h]; exact this

theorem countP_id_pos_iff (l : List Meal) (k : String) :
    0 < l.countP (fun m => m.idMeal == k) ↔ (l.any fun x => x.idMeal == k) = true := by
  rw [List.countP_pos_iff, List.any_eq_true]

theorem occurrences_eq_length_iff (ls : List (List Meal)) (k : String)
    (hnd : ∀ l ∈ ls, (l.map Meal.idMeal).Nodup) :
    occurrences ls k = ls.length ↔ inEveryList ls k = true := by
  induction ls with
  | nil => simp [occurrences, inEveryList]
  | cons l rest ih =>
    have hle : occurrences rest k ≤ rest.length := by
      clear ih
      induction rest with
      | nil => simp [occurrences]
      | cons l2 rest2 ih2 =>
        have h1 := countP_id_le_one l2 k (hnd l2 (by simp))
        have h2 := ih2 (fun x hx => hnd x (by
          rcases List.mem_cons.1 hx with h | h
          · exact h ▸ List.mem_cons_self _ _
          · exact List.mem_cons_of_mem _ (List.mem_cons_of_mem _ h)))
        simp only [occurrences, List.map_cons, List.sum_cons, List.length_cons] at h2 ⊢
        omega
    have h1 := countP_id_le_one l k (hnd l (List.mem_cons_self _ _))
    have ih' := ih (fun x hx => hnd x (List.mem_cons_of_mem _ hx))
    have hpos := countP_id_pos_iff l k
    have e : inEveryList (l :: rest) k = ((l.any fun x => x.idMeal == k) && inEveryList rest k) := by
      simp [inEveryList]
    rw [e, Bool.and_eq_true, ← ih', ← hpos]
    simp only [occurrences, List.map_cons, List.sum_cons, List.length_cons] at hle ⊢
    constructor
    · intro h; constructor <;> omega
    · rintro ⟨h2, h3⟩; omega

theorem nonEmptyLists_map_some (lists : List (List Meal)) (hne : ∀ l ∈ lists, l ≠ []) :
    nonEmptyLists (lists.map some) = lists := by
  induction lists with
  | nil => rfl
  | cons l rest ih =>
    have hl : l.length ≠ 0 := fun h => hne l (List.mem_cons_self _ _) (List.length_eq_zero.1 h)
    have ih' := ih (fun x hx => hne x (List.mem_cons_of_mem _ hx))
    unfold nonEmptyLists at ih' ⊢
    rw [List.map_cons, List.filterMap_cons]
    simp only [ne_eq, hl, not_false_eq_true, ↓reduceIte]
    rw [ih']

theorem get_eq_some_iff_count (map : CountMap) (k : String) (n : Nat) (hn : 0 < n) :
    (map.get k == some n) = decide (map.count k = n) := by
  unfold CountMap.count
  cases h : map.get k with
  | none =>
    have : ¬ 0 = n := by omega
    simp [this]
  | some v =>
    by_cases hv : v = n
    · simp [hv]
    · simp [hv]

theorem intersectById_eq_filter (first : List Meal) (rest : List (List Meal))
    (hne : ∀ l ∈ first :: rest, l ≠ [])
    (hnd : ∀ l ∈ first :: rest, (l.map Meal.idMeal).Nodup) :
    intersectById ((first :: rest).map some) =
      first.filter (fun m => inEveryList (first :: rest) m.idMeal) := by
  unfold intersectById
  rw [nonEmptyLists_map_some _ hne]
  dsimp only
  apply List.filter_congr
  intro m _
  rw [get_eq_some_iff_count _ _ _ (by simp), count_countAll]
  have := occurrences_eq_length_iff (first :: rest) m.idMeal hnd
  cases hb : inEveryList (first :: rest) m.idMeal with
  | true => simpa using this.2 hb
  | false =>
    rw [decide_eq_false_iff_not]
    intro h
    rw [this.1 h] at hb
    cases hb

/-- C11: for two or more non-empty lists none of which holds an id twice,
`intersectById` returns exactly the elements of the first list whose id occurs
in every list, in the order of the first list; so no element of the first list
whose id is in all lists is dropped, and every returned element is one of
them. -/
theorem intersectById_exact (first second : List Meal) (rest : List (List Meal))
    (hne : ∀ l ∈ first :: second :: rest, l ≠ [])
    (hnd : ∀ l ∈ first :: second :: rest, (l.map Meal.idMeal).Nodup) :
    intersectById ((first :: second :: rest).map some) =
      first.filter (fun m => inEveryList (first :: second :: rest) m.idMeal) ∧
    (∀ m ∈ first, inEveryList (first :: second :: rest) m.idMeal = true →
      m ∈ intersectById ((first :: second :: rest).map some)) ∧
    (∀ m ∈ intersectById ((first :: second :: rest).map some),
      m ∈ first ∧ ∀ l ∈ first :: second :: rest, m.idMeal ∈ l.map Meal.idMeal) := by
  have h := intersectById_eq_filter first (second :: rest) hne hnd
  refine ⟨h, fun m hm hin => ?_, fun m hm => ?_⟩
  · rw [h, List.mem_filter]
    exact ⟨hm, hin⟩
  · rw [h, List.mem_filter] at hm
    refine ⟨hm.1, fun l hl => ?_⟩
    have := hm.2
    simp only [inEveryList, List.all_eq_true, List.any_eq_true, beq_iff_eq] at this
    obtain ⟨x, hx, hxe⟩ := this l hl
    exact List.mem_map.2 ⟨x, hx, hxe⟩

/-- C11, applied to the lists `[A, B]` and `[B]`. -/
theorem intersectById_exact_witness :
    (∀ l ∈ [[sampleA, sampleB], [sampleB]], l ≠ []) ∧
    (∀ l ∈ [[sampleA, sampleB], [sampleB]], (l.map Meal.idMeal).Nodup) ∧
    intersectById ([[sampleA, sampleB], [sampleB]].map some) =
      [sampleA, sampleB].filter
        (fun m => inEveryList [[sampleA, sampleB], [sampleB]] m.idMeal) :=
  ⟨by decide, by decide,
   (intersectById_exact [sampleA, sampleB] [sampleB] [] (by decide) (by decide)).1⟩

/-! ## Page slices -/

theorem pagedMeals_length_le (meals : List Meal) (page : Int) :
    (pagedMeals meals page).length ≤ 12 := by
  unfold pagedMeals jsSlice
  simp only [pageSize, List.length_take, List.length_drop]
  push_cast
  split <;> split <;> omega

theorem pagedMeals_succ (meals : List Meal) (n : Nat) :
    pagedMeals meals ((n : Int) + 1) = (meals.drop (12 * n)).take 12 := by
  unfold pagedMeals jsSlice
  simp only [pageSize]
  have h0 : ¬ ((n : Int) + 1 - 1) * ((12 : Nat) : Int) < 0 := by push_cast; omega
  have h1 : ¬ ((n : Int) + 1 - 1) * ((12 : Nat) : Int) + ((12 : Nat) : Int) < 0 := by
    push_cast; omega
  rw [if_neg h0, if_neg h1]
  by_cases hle : 12 * n ≤ meals.length
  · have e1 : (min (((n : Int) + 1 - 1) * ((12 : Nat) : Int)) (meals.length : Int)).toNat =
        12 * n := by push_cast; omega
    have e2 : (min (((n : Int) + 1 - 1) * ((12 : Nat) : Int) + ((12 : Nat) : Int))
        (meals.length : Int) -
        min (((n : Int) + 1 - 1) * ((12 : Nat) : Int)) (meals.length : Int)).toNat =
        min 12 (meals.length - 12 * n) := by push_cast; omega
    rw [e1, e2]
    rw [← List.length_drop, List.take_eq_take]
    simp
  · have e1 : (min (((n : Int) + 1 - 1) * ((12 : Nat) : Int)) (meals.length : Int)).toNat =
        meals.length := by push_cast; omega
    rw [e1, List.drop_of_length_le (le_refl _), List.drop_of_length_le (by omega)]
    simp

theorem flatten_chunks (meals : List Meal) (n : Nat) :
    ((List.range n).map fun i => (meals.drop (12 * i)).take 12).flatten =
      meals.take (12 * n) := by
  induction n with
  | zero => simp
  | succ n ih =>
    rw [List.range_succ, List.map_append, List.flatten_append, ih]
    simp only [List.map_cons, List.map_nil, List.flatten_cons, List.flatten_nil,
      List.append_nil]
    rw [Nat.mul_succ, List.take_add]

theorem pageSlices_eq (meals : List Meal) :
    pageSlices meals =
      (List.range (totalPages meals.length).toNat).map fun i =>
        (meals.drop (12 * i)).take 12 := by
  unfold pageSlices
  apply List.map_congr_left
  intro i _
  exact pagedMeals_succ meals i

theorem flatten_pageSlices (meals : List Meal) : (pageSlices meals).flatten = meals := by
  rw [pageSlices_eq, flatten_chunks]
  apply List.take_of_length_le
  unfold totalPages
  simp only [pageSize]
  omega

theorem pagedMeals_ne_nil (meals : List Meal) (p : Int) (hpos : 0 < meals.length)
    (h1 : 1 ≤ p) (h2 : p ≤ totalPages meals.length) : pagedMeals meals p ≠ [] := by
  obtain ⟨n, hn⟩ : ∃ n : Nat, p = (n : Int) + 1 := ⟨(p - 1).toNat, by omega⟩
  subst hn
  rw [pagedMeals_succ]
  have hlt : 12 * n < meals.length := by
    unfold totalPages at h2
    simp only [pageSize] at h2
    omega
  intro h
  have hl := congrArg List.length h
  simp only [List.length_take, List.length_drop, List.length_nil] at hl
  omega

theorem pagedMeals_getElem? (meals : List Meal) (i : Nat) :
    (pagedMeals meals ((i / 12 : Nat) + 1))[i % 12]? = meals[i]? := by
  rw [pagedMeals_succ, List.getElem?_take_of_lt (Nat.mod_lt _ (by omega)), List.getElem?_drop,
    Nat.div_add_mod]

/-- C12: the slices of pages 1 to `totalPages`, concatenated in order, are the
result list; every slice has at most 12 items; when the list is not empty every
page from 1 to `totalPages` is non-empty; and the item at position `i` of the
list is the item at position `i mod 12` of page `i div 12 + 1`. -/
theorem pageSlices_partition (meals : List Meal) :
    (pageSlices meals).flatten = meals ∧
    (∀ page : Int, (pagedMeals meals page).length ≤ pageSize) ∧
    (0 < meals.length → ∀ p : Int, 1 ≤ p → p ≤ totalPages meals.length →
      pagedMeals meals p ≠ []) ∧
    (∀ i : Nat, (pagedMeals meals ((i / pageSize : Nat) + 1))[i % pageSize]? = meals[i]?) :=
  ⟨flatten_pageSlices meals, fun page => pagedMeals_length_le meals page,
   fun hpos p h1 h2 => pagedMeals_ne_nil meals p hpos h1 h2,
   fun i => pagedMeals_getElem? meals i⟩

/-- C12, applied to thirteen results and page 2. -/
theorem pageSlices_partition_witness :
    0 < sampleThirteen.length ∧ (1 : Int) ≤ 2 ∧ (2 : Int) ≤ totalPages sampleThirteen.length ∧
    pagedMeals sampleThirteen 2 ≠ [] :=
  ⟨by decide, by decide, by decide,
   (pageSlices_partition sampleThirteen).2.2.1 (by decide) 2 (by decide) (by decide)⟩

end RecipeIdeas
